import Mathlib

/-!
# Point-set pattern search (musii-kit): spec-level model and verification

The repository's search core (`musii_kit/pattern_search/matching.py`, exposing
`find_occurrences`) is exercised from the notebooks but its source is not part
of the files available here, so the core is modelled from the specification:
points as exact integer coordinate vectors, the vector index grouping all
pairwise translation vectors, and the occurrence matcher applying the
minimum-match-size policy.
-/

/-- Modelled from the spec: a Point is a fixed-arity tuple of exact numeric
coordinates (onset, pitch, optional auxiliary dimensions); equality and
subtraction are exact. -/
abbrev Point := List Int

/-- Modelled from the spec: the translation vector is the componentwise
difference between a dataset point `d` and a pattern point `p`, i.e. `d - p`,
over the matching dimensions (default: all dimensions). -/
def translationVector (p d : Point) : Point :=
  List.zipWith (fun a b => a - b) d p

/-- Componentwise addition of a point and a translation vector (used to state
translation correctness). -/
def pointAdd (p t : Point) : Point :=
  List.zipWith (fun a b => a + b) p t

/-- Modelled from the spec: an Occurrence holds a translation vector, the count
of pattern points matched, the realized (pattern-index → dataset-point)
correspondences, and a flag for whether the match is exact. -/
structure Occurrence where
  vector : Point
  matchedCount : Nat
  isExact : Bool
  correspondences : List (Nat × Point)
deriving DecidableEq

/-- Modelled from the spec: a SearchResult is the ordered list of Occurrences
returned to the caller. -/
structure SearchResult where
  occurrences : List Occurrence
deriving DecidableEq

/-- Modelled from the spec: the error taxonomy of the search entry point. -/
inductive SearchError where
  | invalidInput
  | dimensionMismatch
deriving DecidableEq

/-- Modelled from the spec (4.2): pattern index `i` matches translation vector
`v` when at least one dataset point lies at that translation from `P[i]`. -/
def patternMatchesAt (P D : List Point) (v : Point) (i : Nat) : Bool :=
  D.any (fun d => translationVector (P.getD i []) d == v)

/-- Modelled from the spec (4.2): the set of pattern indices `i` that have at
least one dataset point at translation `v`; each pattern index appears at most
once (only distinct `(v, i)` pairs are retained). -/
def matchedSet (P D : List Point) (v : Point) : List Nat :=
  (List.range P.length).filter (patternMatchesAt P D v)

/-- Cardinality `c` of the pattern-index set associated with vector `v`. -/
def matchCount (P D : List Point) (v : Point) : Nat :=
  (matchedSet P D v).length

/-- Modelled from the spec (4.2): the witnessing dataset index recorded for a
retained `(v, i)` pair — the smallest qualifying dataset index. -/
def witnessIdx (P D : List Point) (v : Point) (i : Nat) : Nat :=
  D.findIdx (fun d => translationVector (P.getD i []) d == v)

/-- Modelled from the spec (4.3): the single Occurrence emitted for a vector
`v`: matched count `c`, exact flag `(c == m)`, and the correspondence list
`(i, D[j_i])` over the matched set, using the recorded witness indices. -/
def mkOccurrence (P D : List Point) (v : Point) : Occurrence :=
  { vector := v
    matchedCount := matchCount P D v
    isExact := matchCount P D v == P.length
    correspondences :=
      (matchedSet P D v).map (fun i => (i, D.getD (witnessIdx P D v i) [])) }

/-- Modelled from the spec (4.2): the distinct translation vectors
`v(i,j) = D[j] - P[i]` over all pattern/dataset index pairs. -/
def candidateVectors (P D : List Point) : List Point :=
  (P.flatMap (fun p => D.map (fun d => translationVector p d))).dedup

/-- The dataset index of the first matched point of the occurrence at vector
`v` (the witness of the smallest matched pattern index), used as the ordering
tie-breaker. -/
def firstMatchedIdx (P D : List Point) (v : Point) : Nat :=
  witnessIdx P D v ((matchedSet P D v).headD 0)

/-- Modelled from the spec: the ordering key of an occurrence's translation
vector — primary dimension, then secondary dimension, ties broken by the
dataset index of the first matched point. -/
def vecKey (P D : List Point) (v : Point) : Int × Int × Nat :=
  (v.headD 0, (v.drop 1).headD 0, firstMatchedIdx P D v)

/-- Lexicographic comparison of ordering keys. -/
def keyLe : Int × Int × Nat → Int × Int × Nat → Bool
  | (a₁, b₁, c₁), (a₂, b₂, c₂) =>
    decide (a₁ < a₂) ||
      (decide (a₁ = a₂) &&
        (decide (b₁ < b₂) || (decide (b₁ = b₂) && decide (c₁ ≤ c₂))))

/-- The ordering relation on translation vectors used to sort occurrences. -/
def vecLe (P D : List Point) (v w : Point) : Prop :=
  keyLe (vecKey P D v) (vecKey P D w) = true

instance (P D : List Point) : DecidableRel (vecLe P D) := fun v w => by
  unfold vecLe; infer_instance

/-- Modelled from the spec (4.1/7): validation of the raw input — non-empty
pattern and point set, uniform dimensionality across all points, and
`min_match_size` within `[1, pattern.size]`. -/
def validInput (P D : List Point) (minMatchSize : Nat) : Bool :=
  !P.isEmpty && !D.isEmpty &&
    (P ++ D).all (fun p => (P ++ D).all (fun q => p.length == q.length)) &&
    decide (1 ≤ minMatchSize) && decide (minMatchSize ≤ P.length)

/-- Modelled from the spec (4.3): the ordered occurrence list — one Occurrence
per distinct vector whose matched-set cardinality meets `minMatchSize`, sorted
by the SearchResult ordering rule. -/
def occurrencesFor (P D : List Point) (minMatchSize : Nat) : List Occurrence :=
  (((candidateVectors P D).filter
      (fun v => minMatchSize ≤ matchCount P D v)).insertionSort (vecLe P D)).map
    (mkOccurrence P D)

/-- Modelled from the spec (4.4): the search entry point
`findOccurrences(pattern, pointSet, minMatchSize)`; fails with `InvalidInput`
before any matching work on invalid input, otherwise returns the SearchResult. -/
def find_occurrences (pattern pointSet : List Point) (minMatchSize : Nat) :
    Except SearchError SearchResult :=
  if validInput pattern pointSet minMatchSize then
    .ok { occurrences := occurrencesFor pattern pointSet minMatchSize }
  else
    .error .invalidInput

/-- Modelled from the spec (4.4): the default `minMatchSize = pattern.size`
(exact-match only). -/
def find_occurrences_default (pattern pointSet : List Point) :
    Except SearchError SearchResult :=
  find_occurrences pattern pointSet pattern.length

deriving instance DecidableEq for Except

example :
    (find_occurrences_default [[0, 60]] [[0, 60], [2, 60], [4, 67]]).map
      (fun r => r.occurrences.map (fun o => o.vector)) =
    .ok [[0, 0], [2, 0], [4, 7]] := by decide

theorem matchCount_le (P D : List Point) (v : Point) : matchCount P D v ≤ P.length := by
  have h := List.length_filter_le (patternMatchesAt P D v) (List.range P.length)
  simpa [matchCount, matchedSet] using h

theorem nodup_matchedSet (P D : List Point) (v : Point) : (matchedSet P D v).Nodup :=
  (List.nodup_range _).filter _

theorem mem_candidateVectors {P D : List Point} {v : Point} :
    v ∈ candidateVectors P D ↔ ∃ p ∈ P, ∃ d ∈ D, v = translationVector p d := by
  simp only [candidateVectors, List.mem_dedup, List.mem_flatMap, List.mem_map]
  constructor
  · rintro ⟨p, hp, d, hd, rfl⟩
    exact ⟨p, hp, d, hd, rfl⟩
  · rintro ⟨p, hp, d, hd, rfl⟩
    exact ⟨p, hp, d, hd, rfl⟩

theorem nodup_candidateVectors (P D : List Point) : (candidateVectors P D).Nodup :=
  List.nodup_dedup _

theorem mem_candidateVectors_of_matchCount_pos {P D : List Point} {v : Point}
    (h : 1 ≤ matchCount P D v) : v ∈ candidateVectors P D := by
  obtain ⟨i, hi⟩ := List.exists_mem_of_length_pos h
  have hi' := List.mem_filter.mp hi
  have hrange : i < P.length := List.mem_range.mp hi'.1
  obtain ⟨d, hd, hdv⟩ := List.any_eq_true.mp hi'.2
  refine mem_candidateVectors.mpr ⟨P.getD i [], ?_, d, hd, (eq_of_beq hdv).symm⟩
  rw [List.getD_eq_getElem P [] hrange]
  exact List.getElem_mem hrange

theorem mem_occurrencesFor {P D : List Point} {k : Nat} {o : Occurrence} :
    o ∈ occurrencesFor P D k ↔
      ∃ v ∈ candidateVectors P D, k ≤ matchCount P D v ∧ o = mkOccurrence P D v := by
  unfold occurrencesFor
  rw [List.mem_map]
  constructor
  · rintro ⟨v, hv, rfl⟩
    have hv' := (List.perm_insertionSort (vecLe P D) _).mem_iff.mp hv
    have hv'' := List.mem_filter.mp hv'
    exact ⟨v, hv''.1, by simpa using hv''.2, rfl⟩
  · rintro ⟨v, hv, hk, rfl⟩
    refine ⟨v, ?_, rfl⟩
    exact (List.perm_insertionSort (vecLe P D) _).mem_iff.mpr
      (List.mem_filter.mpr ⟨hv, by simpa using hk⟩)

theorem validInput_iff {P D : List Point} {k : Nat} :
    validInput P D k = true ↔
      P ≠ [] ∧ D ≠ [] ∧ (∀ p ∈ P ++ D, ∀ q ∈ P ++ D, p.length = q.length) ∧
        1 ≤ k ∧ k ≤ P.length := by
  have hP : (!P.isEmpty) = true ↔ P ≠ [] := by cases P <;> simp
  have hD : (!D.isEmpty) = true ↔ D ≠ [] := by cases D <;> simp
  simp only [validInput, Bool.and_eq_true, hP, hD, List.all_eq_true, beq_iff_eq,
    decide_eq_true_eq, and_assoc]

theorem find_occurrences_ok_iff {P D : List Point} {k : Nat} {r : SearchResult} :
    find_occurrences P D k = .ok r ↔
      validInput P D k = true ∧ r = ⟨occurrencesFor P D k⟩ := by
  unfold find_occurrences
  by_cases h : validInput P D k = true
  · simp [h, eq_comm]
  · simp [h]

theorem find_occurrences_error_iff {P D : List Point} {k : Nat} {e : SearchError} :
    find_occurrences P D k = .error e ↔
      validInput P D k = false ∧ e = .invalidInput := by
  unfold find_occurrences
  by_cases h : validInput P D k = true
  · simp [h]
  · have h' : validInput P D k = false := Bool.eq_false_iff.mpr h
    simp [h', eq_comm]

theorem filter_beq_of_nodup_mem {l : List Point} {v : Point}
    (hnd : l.Nodup) (hv : v ∈ l) : l.filter (fun w => w == v) = [v] := by
  induction l with
  | nil => cases hv
  | cons a l ih =>
    rcases List.nodup_cons.mp hnd with ⟨ha, hl⟩
    rw [List.filter_cons]
    rcases List.mem_cons.mp hv with heq | hv'
    · subst heq
      rw [if_pos (by simp)]
      have hnil : l.filter (fun w => w == v) = [] := by
        refine List.filter_eq_nil_iff.mpr ?_
        intro w hw hwa
        exact ha (eq_of_beq hwa ▸ hw)
      rw [hnil]
    · have hne : ¬(a == v) = true := by
        intro hav
        exact ha (eq_of_beq hav ▸ hv')
      rw [if_neg hne]
      exact ih hl hv'

theorem filter_beq_of_not_mem {l : List Point} {v : Point}
    (hv : v ∉ l) : l.filter (fun w => w == v) = [] := by
  refine List.filter_eq_nil_iff.mpr ?_
  intro w hw hwv
  exact hv (eq_of_beq hwv ▸ hw)

theorem occurrencesFor_filter_vector (P D : List Point) (k : Nat) (hk : 1 ≤ k)
    (v : Point) :
    (occurrencesFor P D k).filter (fun o => o.vector == v) =
      if k ≤ matchCount P D v then [mkOccurrence P D v] else [] := by
  unfold occurrencesFor
  rw [List.filter_map]
  have hcomp : ((fun o : Occurrence => o.vector == v) ∘ mkOccurrence P D) =
      (fun w => w == v) := rfl
  rw [hcomp]
  have hperm := (List.perm_insertionSort (vecLe P D)
      ((candidateVectors P D).filter (fun w => k ≤ matchCount P D w))).filter
      (fun w => w == v)
  have hndf : ((candidateVectors P D).filter
      (fun w => k ≤ matchCount P D w)).Nodup :=
    (nodup_candidateVectors P D).filter _
  by_cases hc : k ≤ matchCount P D v
  · have hmem : v ∈ (candidateVectors P D).filter (fun w => k ≤ matchCount P D w) :=
      List.mem_filter.mpr ⟨mem_candidateVectors_of_matchCount_pos (hk.trans hc),
        by simpa using hc⟩
    have heq : ((candidateVectors P D).filter
        (fun w => k ≤ matchCount P D w)).filter (fun w => w == v) = [v] :=
      filter_beq_of_nodup_mem hndf hmem
    rw [heq] at hperm
    rw [if_pos hc, List.perm_singleton.mp hperm]
    simp
  · have hmem : v ∉ (candidateVectors P D).filter (fun w => k ≤ matchCount P D w) := by
      intro hvm
      exact hc (by simpa using (List.mem_filter.mp hvm).2)
    have heq : ((candidateVectors P D).filter
        (fun w => k ≤ matchCount P D w)).filter (fun w => w == v) = [] :=
      filter_beq_of_not_mem hmem
    rw [heq] at hperm
    rw [if_neg hc, hperm.eq_nil]
    simp

/-- C1: in any successful result, for each vector `v` with matched-set
cardinality `c ≥ min_match_size` the occurrence list contains exactly one
Occurrence with vector `v`, and it carries matched count `c`, exact flag
`(c == m)`, and the witness-built correspondences (it equals
`mkOccurrence P D v`); for each vector with `c < min_match_size` no entry of
any kind appears. -/
theorem find_occurrences_threshold_spec (P D : List Point) (k : Nat)
    (r : SearchResult) (h : find_occurrences P D k = .ok r) (v : Point) :
    r.occurrences.filter (fun o => o.vector == v) =
      if k ≤ matchCount P D v then [mkOccurrence P D v] else [] := by
  obtain ⟨hval, rfl⟩ := find_occurrences_ok_iff.mp h
  have hk : 1 ≤ k := (validInput_iff.mp hval).2.2.2.1
  exact occurrencesFor_filter_vector P D k hk v

/-- Witness for C1 at the spec's concrete scenario, with `v = (2, 0)`. -/
theorem find_occurrences_threshold_spec_witness :
    (SearchResult.mk
        [⟨[0, 0], 1, true, [(0, [0, 60])]⟩, ⟨[2, 0], 1, true, [(0, [2, 60])]⟩,
          ⟨[4, 7], 1, true, [(0, [4, 67])]⟩]).occurrences.filter
        (fun o => o.vector == [2, 0]) =
      if 1 ≤ matchCount [[0, 60]] [[0, 60], [2, 60], [4, 67]] [2, 0] then
        [mkOccurrence [[0, 60]] [[0, 60], [2, 60], [4, 67]] [2, 0]]
      else [] :=
  find_occurrences_threshold_spec [[0, 60]] [[0, 60], [2, 60], [4, 67]] 1
    (SearchResult.mk
      [⟨[0, 0], 1, true, [(0, [0, 60])]⟩, ⟨[2, 0], 1, true, [(0, [2, 60])]⟩,
        ⟨[4, 7], 1, true, [(0, [4, 67])]⟩]) (by decide) [2, 0]

/-- C2: with the default `min_match_size = |P|`, every Occurrence in the
result is exact: its matched count equals the pattern size and its exact flag
is set. -/
theorem find_occurrences_default_only_exact (P D : List Point)
    (r : SearchResult) (h : find_occurrences_default P D = .ok r) :
    ∀ o ∈ r.occurrences, o.matchedCount = P.length ∧ o.isExact = true := by
  rw [find_occurrences_default] at h
  obtain ⟨hval, rfl⟩ := find_occurrences_ok_iff.mp h
  intro o ho
  obtain ⟨v, hv, hk, rfl⟩ := mem_occurrencesFor.mp ho
  have hceq : matchCount P D v = P.length := le_antisymm (matchCount_le P D v) hk
  constructor
  · simpa [mkOccurrence] using hceq
  · simp [mkOccurrence, hceq]

/-- Witness for C2 at the spec's concrete scenario, instantiated at the
occurrence with vector `(2, 0)`. -/
theorem find_occurrences_default_only_exact_witness :
    (Occurrence.mk [2, 0] 1 true [(0, [2, 60])]).matchedCount =
        List.length [[(0 : Int), 60]] ∧
      (Occurrence.mk [2, 0] 1 true [(0, [2, 60])]).isExact = true :=
  find_occurrences_default_only_exact [[0, 60]] [[0, 60], [2, 60], [4, 67]]
    (SearchResult.mk
      [⟨[0, 0], 1, true, [(0, [0, 60])]⟩, ⟨[2, 0], 1, true, [(0, [2, 60])]⟩,
        ⟨[4, 7], 1, true, [(0, [4, 67])]⟩]) (by decide)
    (Occurrence.mk [2, 0] 1 true [(0, [2, 60])]) (by decide)

/-- C3: `find_occurrences` fails with `InvalidInput` exactly when the pattern
is empty, the point set is empty, the points do not all share one
dimensionality, or `min_match_size` lies outside `[1, pattern.size]`; in the
failing case the result is the bare error, never a partial result. -/
theorem find_occurrences_invalidInput_iff (P D : List Point) (k : Nat) :
    find_occurrences P D k = .error .invalidInput ↔
      (P = [] ∨ D = [] ∨ ¬(∀ p ∈ P ++ D, ∀ q ∈ P ++ D, p.length = q.length) ∨
        k < 1 ∨ P.length < k) := by
  rw [find_occurrences_error_iff]
  constructor
  · rintro ⟨hval, -⟩
    by_contra hcon
    push_neg at hcon
    obtain ⟨h1, h2, h3, h4, h5⟩ := hcon
    have hvt : validInput P D k = true :=
      validInput_iff.mpr ⟨h1, h2, h3, by omega, by omega⟩
    cases hvt.symm.trans hval
  · intro hcon
    refine ⟨?_, rfl⟩
    cases hb : validInput P D k with
    | false => rfl
    | true =>
      obtain ⟨h1, h2, h3, h4, h5⟩ := validInput_iff.mp hb
      rcases hcon with h | h | h | h | h
      · exact absurd h h1
      · exact absurd h h2
      · exact absurd h3 h
      · omega
      · omega

/-- C4: duplicate points never inflate a matched count: the matched set holds
each pattern index at most once, its cardinality never exceeds the pattern
size (match size is defined over pattern coverage), and duplicating or
deduplicating dataset points leaves the matched count of every vector
unchanged. -/
theorem matchCount_no_inflation (P D : List Point) (v : Point) :
    (matchedSet P D v).Nodup ∧ matchCount P D v ≤ P.length ∧
      (mkOccurrence P D v).matchedCount = matchCount P D v ∧
      matchCount P (D ++ D) v = matchCount P D v ∧
      matchCount P D.dedup v = matchCount P D v := by
  refine ⟨nodup_matchedSet P D v, matchCount_le P D v, rfl, ?_, ?_⟩
  · have hpm : patternMatchesAt P (D ++ D) v = patternMatchesAt P D v := by
      funext i
      simp [patternMatchesAt, List.any_append]
    simp [matchCount, matchedSet, hpm]
  · have hpm : patternMatchesAt P D.dedup v = patternMatchesAt P D v := by
      funext i
      have hiff : patternMatchesAt P D.dedup v i = true ↔
          patternMatchesAt P D v i = true := by
        simp [patternMatchesAt, List.any_eq_true, List.mem_dedup]
      cases hb : patternMatchesAt P D v i
      · refine Bool.eq_false_iff.mpr (fun hc => ?_)
        have hcontra := hiff.mp hc
        simp [hb] at hcontra
      · exact hiff.mpr hb
    simp [matchCount, matchedSet, hpm]

theorem keyLe_total (x y : Int × Int × Nat) : keyLe x y = true ∨ keyLe y x = true := by
  rcases x with ⟨a₁, b₁, c₁⟩
  rcases y with ⟨a₂, b₂, c₂⟩
  simp only [keyLe, Bool.or_eq_true, Bool.and_eq_true, decide_eq_true_eq]
  omega

theorem keyLe_trans {x y z : Int × Int × Nat} (h₁ : keyLe x y = true)
    (h₂ : keyLe y z = true) : keyLe x z = true := by
  rcases x with ⟨a₁, b₁, c₁⟩
  rcases y with ⟨a₂, b₂, c₂⟩
  rcases z with ⟨a₃, b₃, c₃⟩
  simp only [keyLe, Bool.or_eq_true, Bool.and_eq_true, decide_eq_true_eq] at h₁ h₂ ⊢
  omega

/-- C5: every successful result's occurrence list is sorted by translation
vector — ascending primary dimension, then secondary dimension, ties broken by
the dataset index of the first matched point (the `vecKey` ordering). -/
theorem find_occurrences_sorted (P D : List Point) (k : Nat) (r : SearchResult)
    (h : find_occurrences P D k = .ok r) :
    r.occurrences.Pairwise
      (fun a b => keyLe (vecKey P D a.vector) (vecKey P D b.vector) = true) := by
  obtain ⟨hval, rfl⟩ := find_occurrences_ok_iff.mp h
  unfold occurrencesFor
  rw [List.pairwise_map]
  haveI : IsTotal Point (vecLe P D) := ⟨fun a b => keyLe_total _ _⟩
  haveI : IsTrans Point (vecLe P D) := ⟨fun a b c => keyLe_trans⟩
  have hsorted : List.Sorted (vecLe P D)
      (((candidateVectors P D).filter
          (fun v => k ≤ matchCount P D v)).insertionSort (vecLe P D)) :=
    List.sorted_insertionSort (vecLe P D) _
  exact hsorted.imp (fun hab => hab)

/-- Witness for C5 at the spec's concrete scenario. -/
theorem find_occurrences_sorted_witness :
    (SearchResult.mk
        [⟨[0, 0], 1, true, [(0, [0, 60])]⟩, ⟨[2, 0], 1, true, [(0, [2, 60])]⟩,
          ⟨[4, 7], 1, true, [(0, [4, 67])]⟩]).occurrences.Pairwise
      (fun a b => keyLe (vecKey [[0, 60]] [[0, 60], [2, 60], [4, 67]] a.vector)
        (vecKey [[0, 60]] [[0, 60], [2, 60], [4, 67]] b.vector) = true) :=
  find_occurrences_sorted [[0, 60]] [[0, 60], [2, 60], [4, 67]] 1
    (SearchResult.mk
      [⟨[0, 0], 1, true, [(0, [0, 60])]⟩, ⟨[2, 0], 1, true, [(0, [2, 60])]⟩,
        ⟨[4, 7], 1, true, [(0, [4, 67])]⟩]) (by decide)

/-- C6: the search is pure and deterministic — two calls on identical
arguments return value-equal SearchResults, hence the same ordered occurrence
list with the same vectors, counts, and correspondences. -/
theorem find_occurrences_deterministic (P D : List Point) (k : Nat)
    (r₁ r₂ : SearchResult) (h₁ : find_occurrences P D k = .ok r₁)
    (h₂ : find_occurrences P D k = .ok r₂) :
    r₁ = r₂ ∧ r₁.occurrences = r₂.occurrences := by
  rw [h₁] at h₂
  injection h₂ with h
  exact ⟨h, h ▸ rfl⟩

/-- Witness for C6 at the spec's concrete scenario. -/
theorem find_occurrences_deterministic_witness :
    (SearchResult.mk
        [⟨[0, 0], 1, true, [(0, [0, 60])]⟩, ⟨[2, 0], 1, true, [(0, [2, 60])]⟩,
          ⟨[4, 7], 1, true, [(0, [4, 67])]⟩]) =
      (SearchResult.mk
        [⟨[0, 0], 1, true, [(0, [0, 60])]⟩, ⟨[2, 0], 1, true, [(0, [2, 60])]⟩,
          ⟨[4, 7], 1, true, [(0, [4, 67])]⟩]) ∧
    (SearchResult.mk
        [⟨[0, 0], 1, true, [(0, [0, 60])]⟩, ⟨[2, 0], 1, true, [(0, [2, 60])]⟩,
          ⟨[4, 7], 1, true, [(0, [4, 67])]⟩]).occurrences =
      (SearchResult.mk
        [⟨[0, 0], 1, true, [(0, [0, 60])]⟩, ⟨[2, 0], 1, true, [(0, [2, 60])]⟩,
          ⟨[4, 7], 1, true, [(0, [4, 67])]⟩]).occurrences :=
  find_occurrences_deterministic [[0, 60]] [[0, 60], [2, 60], [4, 67]] 1
    (SearchResult.mk
      [⟨[0, 0], 1, true, [(0, [0, 60])]⟩, ⟨[2, 0], 1, true, [(0, [2, 60])]⟩,
        ⟨[4, 7], 1, true, [(0, [4, 67])]⟩])
    (SearchResult.mk
      [⟨[0, 0], 1, true, [(0, [0, 60])]⟩, ⟨[2, 0], 1, true, [(0, [2, 60])]⟩,
        ⟨[4, 7], 1, true, [(0, [4, 67])]⟩]) (by decide) (by decide)

/-- C7: for a fixed pattern and point set the search is monotone in the
threshold: every Occurrence returned at the higher threshold `k` is also
returned at any lower valid threshold, and an Occurrence present only at the
lower threshold has matched count in `[lower threshold, |P|)`. -/
theorem find_occurrences_monotone (P D : List Point) (k' k : Nat)
    (r' r : SearchResult) (h' : find_occurrences P D k' = .ok r')
    (h : find_occurrences P D k = .ok r) (hkk : k' < k) :
    (∀ o ∈ r.occurrences, o ∈ r'.occurrences) ∧
      (∀ o ∈ r'.occurrences, o ∉ r.occurrences →
        k' ≤ o.matchedCount ∧ o.matchedCount < P.length) := by
  have hkm : k ≤ P.length :=
    (validInput_iff.mp (find_occurrences_ok_iff.mp h).1).2.2.2.2
  obtain ⟨hval, rfl⟩ := find_occurrences_ok_iff.mp h
  obtain ⟨hval', rfl⟩ := find_occurrences_ok_iff.mp h'
  constructor
  · intro o ho
    obtain ⟨v, hv, hk, rfl⟩ := mem_occurrencesFor.mp ho
    exact mem_occurrencesFor.mpr ⟨v, hv, hkk.le.trans hk, rfl⟩
  · intro o ho hno
    obtain ⟨v, hv, hk', rfl⟩ := mem_occurrencesFor.mp ho
    have hck : matchCount P D v < k := by
      by_contra hge
      push_neg at hge
      exact hno (mem_occurrencesFor.mpr ⟨v, hv, hge, rfl⟩)
    have hcnt : (mkOccurrence P D v).matchedCount = matchCount P D v := rfl
    rw [hcnt]
    omega

/-- Witness for C7 on a two-point pattern with thresholds 1 < 2. -/
theorem find_occurrences_monotone_witness :
    (∀ o ∈ (SearchResult.mk
        [⟨[0, 0], 2, true, [(0, [0, 60]), (1, [1, 62])]⟩]).occurrences,
        o ∈ (SearchResult.mk
          [⟨[-1, -2], 1, false, [(1, [0, 60])]⟩,
            ⟨[0, 0], 2, true, [(0, [0, 60]), (1, [1, 62])]⟩,
            ⟨[1, 2], 1, false, [(0, [1, 62])]⟩,
            ⟨[4, 2], 1, false, [(1, [5, 64])]⟩,
            ⟨[5, 4], 1, false, [(0, [5, 64])]⟩]).occurrences) ∧
      (∀ o ∈ (SearchResult.mk
          [⟨[-1, -2], 1, false, [(1, [0, 60])]⟩,
            ⟨[0, 0], 2, true, [(0, [0, 60]), (1, [1, 62])]⟩,
            ⟨[1, 2], 1, false, [(0, [1, 62])]⟩,
            ⟨[4, 2], 1, false, [(1, [5, 64])]⟩,
            ⟨[5, 4], 1, false, [(0, [5, 64])]⟩]).occurrences,
        o ∉ (SearchResult.mk
            [⟨[0, 0], 2, true, [(0, [0, 60]), (1, [1, 62])]⟩]).occurrences →
          1 ≤ o.matchedCount ∧
            o.matchedCount < List.length [[(0 : Int), 60], [1, 62]]) :=
  find_occurrences_monotone [[0, 60], [1, 62]] [[0, 60], [1, 62], [5, 64]] 1 2
    (SearchResult.mk
      [⟨[-1, -2], 1, false, [(1, [0, 60])]⟩,
        ⟨[0, 0], 2, true, [(0, [0, 60]), (1, [1, 62])]⟩,
        ⟨[1, 2], 1, false, [(0, [1, 62])]⟩,
        ⟨[4, 2], 1, false, [(1, [5, 64])]⟩,
        ⟨[5, 4], 1, false, [(0, [5, 64])]⟩])
    (SearchResult.mk [⟨[0, 0], 2, true, [(0, [0, 60]), (1, [1, 62])]⟩])
    (by decide) (by decide) (by decide)

/-- C10: in every successful result the occurrences' translation vectors are
pairwise distinct, and each occurrence's matched set is the maximal one for
its vector: its count is the full matched-set cardinality and its
correspondences cover exactly the matched pattern indices. -/
theorem find_occurrences_distinct_vectors (P D : List Point) (k : Nat)
    (r : SearchResult) (h : find_occurrences P D k = .ok r) :
    (r.occurrences.map (fun o => o.vector)).Nodup ∧
      ∀ o ∈ r.occurrences, o.matchedCount = matchCount P D o.vector ∧
        o.correspondences.map Prod.fst = matchedSet P D o.vector := by
  obtain ⟨hval, rfl⟩ := find_occurrences_ok_iff.mp h
  constructor
  · unfold occurrencesFor
    rw [List.map_map]
    have hfun : ((fun o : Occurrence => o.vector) ∘ mkOccurrence P D) = id := rfl
    rw [hfun, List.map_id]
    have hnd : ((candidateVectors P D).filter
        (fun v => k ≤ matchCount P D v)).Nodup :=
      (nodup_candidateVectors P D).filter _
    exact ((List.perm_insertionSort (vecLe P D) _).nodup_iff).mpr hnd
  · intro o ho
    obtain ⟨v, hv, hk, rfl⟩ := mem_occurrencesFor.mp ho
    refine ⟨rfl, ?_⟩
    simp only [mkOccurrence, List.map_map]
    exact List.map_id _

/-- Witness for C10 at the spec's concrete scenario. -/
theorem find_occurrences_distinct_vectors_witness :
    ((SearchResult.mk
        [⟨[0, 0], 1, true, [(0, [0, 60])]⟩, ⟨[2, 0], 1, true, [(0, [2, 60])]⟩,
          ⟨[4, 7], 1, true, [(0, [4, 67])]⟩]).occurrences.map
        (fun o => o.vector)).Nodup ∧
      ∀ o ∈ (SearchResult.mk
          [⟨[0, 0], 1, true, [(0, [0, 60])]⟩, ⟨[2, 0], 1, true, [(0, [2, 60])]⟩,
            ⟨[4, 7], 1, true, [(0, [4, 67])]⟩]).occurrences,
        o.matchedCount =
            matchCount [[0, 60]] [[0, 60], [2, 60], [4, 67]] o.vector ∧
          o.correspondences.map Prod.fst =
            matchedSet [[0, 60]] [[0, 60], [2, 60], [4, 67]] o.vector :=
  find_occurrences_distinct_vectors [[0, 60]] [[0, 60], [2, 60], [4, 67]] 1
    (SearchResult.mk
      [⟨[0, 0], 1, true, [(0, [0, 60])]⟩, ⟨[2, 0], 1, true, [(0, [2, 60])]⟩,
        ⟨[4, 7], 1, true, [(0, [4, 67])]⟩]) (by decide)

theorem translationVector_pointAdd (p t : Point) (h : p.length = t.length) :
    translationVector p (pointAdd p t) = t := by
  induction p generalizing t with
  | nil =>
    cases t with
    | nil => rfl
    | cons b t => simp at h
  | cons a p ih =>
    cases t with
    | nil => simp at h
    | cons b t =>
      have hih := ih t (by simpa using h)
      simp only [translationVector, pointAdd, List.zipWith_cons_cons] at hih ⊢
      rw [hih]
      rw [List.cons_eq_cons]
      exact ⟨by omega, rfl⟩

theorem eq_pointAdd_of_translationVector (p q t : Point) (h : q.length = p.length)
    (ht : translationVector p q = t) : q = pointAdd p t := by
  induction p generalizing q t with
  | nil =>
    cases q with
    | nil => subst ht; rfl
    | cons b q => simp at h
  | cons a p ih =>
    cases q with
    | nil => simp at h
    | cons b q =>
      subst ht
      have hih := ih q (translationVector p q) (by simpa using h) rfl
      simp only [translationVector, pointAdd, List.zipWith_cons_cons]
      rw [List.cons_eq_cons]
      refine ⟨by omega, ?_⟩
      simpa [translationVector, pointAdd] using hih

/-- C8: if every pattern point shifted by a constant vector `t` (of the
pattern's dimensionality) lies in the point set, then the default search
returns an exact Occurrence with translation vector `t` whose correspondences
map each pattern index to its shifted counterpart; with `t = 0` this is the
verbatim self-match. -/
theorem find_occurrences_translation (P D : List Point) (t : Point)
    (r : SearchResult) (h : find_occurrences_default P D = .ok r)
    (hlen : ∀ p ∈ P, p.length = t.length)
    (ht : ∀ p ∈ P, pointAdd p t ∈ D) :
    ∃ o ∈ r.occurrences, o.vector = t ∧ o.isExact = true ∧
      o.matchedCount = P.length ∧
      o.correspondences.map Prod.fst = List.range P.length ∧
      ∀ pr ∈ o.correspondences, pr.2 = pointAdd (P.getD pr.1 []) t := by
  rw [find_occurrences_default] at h
  obtain ⟨hval, rfl⟩ := find_occurrences_ok_iff.mp h
  obtain ⟨hP, hD, hdim, -, -⟩ := validInput_iff.mp hval
  have hmatch : ∀ i, i < P.length → patternMatchesAt P D t i = true := by
    intro i hi
    have hpm : P.getD i [] ∈ P := by
      rw [List.getD_eq_getElem P [] hi]
      exact List.getElem_mem hi
    refine List.any_eq_true.mpr ⟨pointAdd (P.getD i []) t, ht _ hpm, ?_⟩
    exact beq_iff_eq.mpr (translationVector_pointAdd _ _ (hlen _ hpm))
  have hms : matchedSet P D t = List.range P.length := by
    refine List.filter_eq_self.mpr ?_
    intro i hi
    exact hmatch i (List.mem_range.mp hi)
  have hmc : matchCount P D t = P.length := by
    rw [matchCount, hms, List.length_range]
  have hpos : 1 ≤ matchCount P D t := by
    rw [hmc]
    rcases P with _ | ⟨p, P⟩
    · exact absurd rfl hP
    · simp
  have hmem : mkOccurrence P D t ∈ occurrencesFor P D P.length :=
    mem_occurrencesFor.mpr
      ⟨t, mem_candidateVectors_of_matchCount_pos hpos, hmc.ge, rfl⟩
  refine ⟨mkOccurrence P D t, hmem, rfl, ?_, ?_, ?_, ?_⟩
  · simp [mkOccurrence, hmc]
  · simp [mkOccurrence, hmc]
  · simp only [mkOccurrence, List.map_map]
    have hid : List.map
        (Prod.fst ∘ fun i => (i, D.getD (witnessIdx P D t i) []))
        (matchedSet P D t) = matchedSet P D t := List.map_id _
    rw [hid, hms]
  · intro pr hpr
    simp only [mkOccurrence] at hpr
    obtain ⟨i, hi, rfl⟩ := List.mem_map.mp hpr
    have hi' := List.mem_filter.mp hi
    have hiP : i < P.length := List.mem_range.mp hi'.1
    have hpmem : P.getD i [] ∈ P := by
      rw [List.getD_eq_getElem P [] hiP]
      exact List.getElem_mem hiP
    have hex : ∃ d ∈ D, (translationVector (P.getD i []) d == t) = true :=
      List.any_eq_true.mp hi'.2
    have hjlt :
        D.findIdx (fun d => translationVector (P.getD i []) d == t) < D.length :=
      List.findIdx_lt_length_of_exists hex
    show D.getD (witnessIdx P D t i) [] = pointAdd (P.getD i []) t
    rw [witnessIdx, List.getD_eq_getElem D [] hjlt]
    exact eq_pointAdd_of_translationVector _ _ _
      (hdim _ (List.mem_append.mpr (Or.inr (List.getElem_mem hjlt))) _
        (List.mem_append.mpr (Or.inl hpmem)))
      (eq_of_beq (@List.findIdx_getElem _ _ D hjlt))

/-- Witness for C8: the zero-vector self-match on the spec's scenario. -/
theorem find_occurrences_translation_witness :
    ∃ o ∈ (SearchResult.mk
        [⟨[0, 0], 1, true, [(0, [0, 60])]⟩, ⟨[2, 0], 1, true, [(0, [2, 60])]⟩,
          ⟨[4, 7], 1, true, [(0, [4, 67])]⟩]).occurrences,
      o.vector = [0, 0] ∧ o.isExact = true ∧
        o.matchedCount = List.length [[(0 : Int), 60]] ∧
        o.correspondences.map Prod.fst =
          List.range (List.length [[(0 : Int), 60]]) ∧
        ∀ pr ∈ o.correspondences,
          pr.2 = pointAdd (List.getD [[(0 : Int), 60]] pr.1 []) [0, 0] :=
  find_occurrences_translation [[0, 60]] [[0, 60], [2, 60], [4, 67]] [0, 0]
    (SearchResult.mk
      [⟨[0, 0], 1, true, [(0, [0, 60])]⟩, ⟨[2, 0], 1, true, [(0, [2, 60])]⟩,
        ⟨[4, 7], 1, true, [(0, [4, 67])]⟩]) (by decide) (by decide) (by decide)

theorem translationVector_injOn (p : Point) {d₁ d₂ : Point}
    (h₁ : d₁.length = p.length) (h₂ : d₂.length = p.length)
    (h : translationVector p d₁ = translationVector p d₂) : d₁ = d₂ := by
  have e₁ := eq_pointAdd_of_translationVector p d₁ _ h₁ rfl
  have e₂ := eq_pointAdd_of_translationVector p d₂ _ h₂ rfl
  rw [e₁, e₂, h]

/-- C9 counterexample: a size-1 pattern against the 2-point set
`[(0,60), (0,60)]` yields one Occurrence, not `n = 2` — occurrences are keyed
by distinct translation vectors, and the duplicated point collapses onto one
vector. -/
theorem size_one_pattern_count_counterexample :
    (find_occurrences_default [[0, 60]] [[0, 60], [0, 60]]).map
        (fun r => r.occurrences.length) = .ok 1 ∧
      (find_occurrences_default [[0, 60]] [[0, 60], [0, 60]]).map
        (fun r => r.occurrences.length) ≠
        .ok (List.length [[(0 : Int), 60], [0, 60]]) := by
  decide

/-- C9 (amended): for a pattern of size 1 and a point set without duplicate
points, the default search returns exactly `|D|` exact Occurrences, one per
dataset point, with translation vectors `D[j] - P[0]` (up to the result
ordering). -/
theorem size_one_pattern_occurrences (p₀ : Point) (D : List Point)
    (r : SearchResult) (h : find_occurrences_default [p₀] D = .ok r)
    (hnd : D.Nodup) :
    r.occurrences.length = D.length ∧
      (r.occurrences.map (fun o => o.vector)).Perm
        (D.map (fun d => translationVector p₀ d)) ∧
      ∀ o ∈ r.occurrences, o.isExact = true ∧ o.matchedCount = 1 := by
  rw [find_occurrences_default] at h
  obtain ⟨hval, rfl⟩ := find_occurrences_ok_iff.mp h
  obtain ⟨-, -, hdim, -, -⟩ := validInput_iff.mp hval
  have hdlen : ∀ d ∈ D, d.length = p₀.length := fun d hd =>
    hdim d (List.mem_append.mpr (Or.inr hd)) p₀
      (List.mem_append.mpr (Or.inl (by simp)))
  have hmapnd : (D.map (fun d => translationVector p₀ d)).Nodup := by
    refine List.Nodup.map_on ?_ hnd
    intro d₁ h₁ d₂ h₂ he
    exact translationVector_injOn p₀ (hdlen d₁ h₁) (hdlen d₂ h₂) he
  have hcand : candidateVectors [p₀] D = D.map (fun d => translationVector p₀ d) := by
    rw [candidateVectors]
    have hfm : ([p₀].flatMap (fun p => D.map (fun d => translationVector p d))) =
        D.map (fun d => translationVector p₀ d) := by simp
    rw [hfm, List.dedup_eq_self.mpr hmapnd]
  have hcount : ∀ v ∈ D.map (fun d => translationVector p₀ d),
      matchCount [p₀] D v = 1 := by
    intro v hv
    obtain ⟨d, hd, rfl⟩ := List.mem_map.mp hv
    have hpred : patternMatchesAt [p₀] D (translationVector p₀ d) 0 = true :=
      List.any_eq_true.mpr ⟨d, hd, beq_iff_eq.mpr rfl⟩
    rw [matchCount, matchedSet]
    have hr1 : List.range (List.length [p₀]) = [0] := rfl
    rw [hr1]
    simp [List.filter_cons, hpred]
  have hfil : (candidateVectors [p₀] D).filter
      (fun v => List.length [p₀] ≤ matchCount [p₀] D v) =
        candidateVectors [p₀] D := by
    refine List.filter_eq_self.mpr ?_
    intro v hv
    rw [hcand] at hv
    simp [hcount v hv]
  have hperm := List.perm_insertionSort (vecLe [p₀] D)
    ((candidateVectors [p₀] D).filter
      (fun v => List.length [p₀] ≤ matchCount [p₀] D v))
  rw [hfil, hcand] at hperm
  refine ⟨?_, ?_, ?_⟩
  · show (occurrencesFor [p₀] D (List.length [p₀])).length = D.length
    unfold occurrencesFor
    rw [List.length_map, hfil, hcand, hperm.length_eq, List.length_map]
  · show ((occurrencesFor [p₀] D (List.length [p₀])).map
        (fun o => o.vector)).Perm _
    unfold occurrencesFor
    rw [List.map_map]
    have hid : ∀ l : List Point,
        l.map ((fun o : Occurrence => o.vector) ∘ mkOccurrence [p₀] D) = l :=
      fun l => List.map_id l
    rw [hid, hfil, hcand]
    exact hperm
  · intro o ho
    obtain ⟨v, hv, hk, rfl⟩ := mem_occurrencesFor.mp ho
    have hc1 : matchCount [p₀] D v = 1 := hcount v (by rwa [hcand] at hv)
    constructor
    · simp [mkOccurrence, hc1]
    · simpa [mkOccurrence] using hc1

/-- Witness for the amended C9 at the spec's concrete scenario. -/
theorem size_one_pattern_occurrences_witness :
    (SearchResult.mk
        [⟨[0, 0], 1, true, [(0, [0, 60])]⟩, ⟨[2, 0], 1, true, [(0, [2, 60])]⟩,
          ⟨[4, 7], 1, true, [(0, [4, 67])]⟩]).occurrences.length =
        List.length [[(0 : Int), 60], [2, 60], [4, 67]] ∧
      ((SearchResult.mk
          [⟨[0, 0], 1, true, [(0, [0, 60])]⟩, ⟨[2, 0], 1, true, [(0, [2, 60])]⟩,
            ⟨[4, 7], 1, true, [(0, [4, 67])]⟩]).occurrences.map
          (fun o => o.vector)).Perm
        ([[(0 : Int), 60], [2, 60], [4, 67]].map
          (fun d => translationVector [0, 60] d)) ∧
      ∀ o ∈ (SearchResult.mk
          [⟨[0, 0], 1, true, [(0, [0, 60])]⟩, ⟨[2, 0], 1, true, [(0, [2, 60])]⟩,
            ⟨[4, 7], 1, true, [(0, [4, 67])]⟩]).occurrences,
        o.isExact = true ∧ o.matchedCount = 1 :=
  size_one_pattern_occurrences [0, 60] [[0, 60], [2, 60], [4, 67]]
    (SearchResult.mk
      [⟨[0, 0], 1, true, [(0, [0, 60])]⟩, ⟨[2, 0], 1, true, [(0, [2, 60])]⟩,
        ⟨[4, 7], 1, true, [(0, [4, 67])]⟩]) (by decide) (by decide)
